import Mathlib

/-!
Shallow embedding of the Prestige game core (rules engine, game reducer,
turn controller) translated from the TypeScript sources
`src/game/rules.ts`, `src/game/engine.ts`, `src/game/turnController.ts`,
together with theorems settling the specification claims.

Gem counts are modelled as `Int` (TypeScript numbers under integer
arithmetic; some intermediate quantities, such as the per-colour spend
computed during a purchase, can be negative in the source).  Fallible
handlers (TypeScript functions that `throw`) are modelled as
`Except String`.
-/

namespace Prestige

/-- Color corresponds to the TypeScript union
`red | blue | green | white | black | gold` from `types.ts`. -/
inductive Color where
  | red | blue | green | white | black | gold
deriving DecidableEq, Repr

/-- Gems models `GemCost & \x7b gold: number \x7d`: a count per colour.
Costs and requirements simply leave `gold` at 0 (the source reads only the
five colour fields of a cost). -/
structure Gems where
  red : Int
  blue : Int
  green : Int
  white : Int
  black : Int
  gold : Int
deriving DecidableEq, Repr

/-- Field access `gems[color]` from the source. -/
def Gems.get (g : Gems) : Color → Int
  | .red => g.red
  | .blue => g.blue
  | .green => g.green
  | .white => g.white
  | .black => g.black
  | .gold => g.gold

/-- The all-zero gem collection. -/
def Gems.zero : Gems := ⟨0, 0, 0, 0, 0, 0⟩

/-- Card levels: the TypeScript type of `Card.level` is the literal union
`1 | 2 | 3`. -/
inductive Level where
  | one | two | three
deriving DecidableEq, Repr

/-- Card from `types.ts`. -/
structure Card where
  id : String
  level : Level
  points : Int
  color : Color
  cost : Gems
deriving DecidableEq, Repr

/-- Noble from `types.ts`. -/
structure Noble where
  id : String
  points : Int
  requirement : Gems
deriving DecidableEq, Repr

/-- PlayerState from `types.ts`. -/
structure PlayerState where
  id : String
  name : String
  gems : Gems
  purchasedCards : List Card
  reservedCards : List Card
  points : Int
  nobles : List Noble
  isAI : Bool
deriving DecidableEq, Repr

/-- Game phases from `types.ts`. -/
inductive Phase where
  | setup | active | endGame | finished
deriving DecidableEq, Repr

/-- One row of cards per level, used for both `deck` and `displayedCards`. -/
structure CardRows where
  level1 : List Card
  level2 : List Card
  level3 : List Card
deriving DecidableEq, Repr

/-- Lookup `rows[levelK]` for the level of a card. -/
def CardRows.at (r : CardRows) : Level → List Card
  | .one => r.level1
  | .two => r.level2
  | .three => r.level3

/-- Replace the row of one level, as the spread-update in the source does. -/
def CardRows.setAt (r : CardRows) : Level → List Card → CardRows
  | .one, l => { r with level1 := l }
  | .two, l => { r with level2 := l }
  | .three, l => { r with level3 := l }

/-- Pending discard obligation (`pendingDiscard` on `GameState`). -/
structure PendingDiscard where
  playerIndex : Nat
  count : Int
deriving DecidableEq, Repr

/-- GameState from `types.ts`. -/
structure GameState where
  players : List PlayerState
  currentPlayerIndex : Nat
  deck : CardRows
  nobles : List Noble
  displayedCards : CardRows
  gemPool : Gems
  gamePhase : Phase
  winner : Option PlayerState := none
  pendingDiscard : Option PendingDiscard := none
deriving DecidableEq, Repr

/-- GameAction from `types.ts`: the discriminated union of player actions.
Gem selections are lists of colours (the source uses `string[]`; every
value actually supplied is one of the six colour strings). -/
inductive GameAction where
  | takeGems (playerIndex : Nat) (gems : List Color)
  | discardGems (playerIndex : Nat) (gems : List Color)
  | reserveCard (playerIndex : Nat) (card : Card)
  | purchaseCard (playerIndex : Nat) (card : Card)
  | claimNoble (playerIndex : Nat) (noble : Noble)
  | endTurn (playerIndex : Nat)
deriving DecidableEq, Repr

/-- Accessor for the `playerIndex` field every action variant carries. -/
def GameAction.playerIndex : GameAction → Nat
  | .takeGems i _ => i
  | .discardGems i _ => i
  | .reserveCard i _ => i
  | .purchaseCard i _ => i
  | .claimNoble i _ => i
  | .endTurn i => i

/-- The five non-wildcard colours, in the order the source enumerates them. -/
def fiveColors : List Color := [.red, .blue, .green, .white, .black]

/-- All six colours. -/
def sixColors : List Color := [.red, .blue, .green, .white, .black, .gold]

/-- Occurrences of a colour in a selection (the per-colour tally the source
builds with its `gemCounts` object). -/
def countColor (gems : List Color) (c : Color) : Nat :=
  (gems.filter (fun x => decide (x = c))).length

/- ===== GameRules (rules.ts) ===== -/

/-- MAX_GEMS_PER_PLAYER from `rules.ts`. -/
def MAX_GEMS_PER_PLAYER : Int := 10

/-- MAX_RESERVED_CARDS from `rules.ts`. -/
def MAX_RESERVED_CARDS : Nat := 3

/-- WINNING_POINTS from `rules.ts`. -/
def WINNING_POINTS : Int := 15

/-- countGems from `rules.ts`: total gems in a collection, gold included. -/
def countGems (g : Gems) : Int :=
  g.red + g.blue + g.green + g.white + g.black + g.gold

/-- canTakeGems from `rules.ts`: at most 3 gems and the post-take total
stays within MAX_GEMS_PER_PLAYER. -/
def canTakeGems (playerGems : Gems) (gemsToTake : List Color) : Bool :=
  if gemsToTake.length > 3 then false
  else countGems playerGems + gemsToTake.length ≤ MAX_GEMS_PER_PLAYER

/-- canAfford from `rules.ts`: shortfall of each of the five colours is
summed into `goldNeeded`, which must be covered by the gold count. -/
def canAfford (playerGems : Gems) (cost : Gems) : Bool :=
  let goldNeeded := fiveColors.foldl
    (fun acc c =>
      let needed := cost.get c
      let available := playerGems.get c
      if available < needed then acc + (needed - available) else acc) 0
  goldNeeded ≤ playerGems.gold

/-- canPurchaseCard from `rules.ts`. -/
def canPurchaseCard (p : PlayerState) (card : Card) : Bool :=
  canAfford p.gems card.cost

/-- isGameOver from `rules.ts`: some player has reached WINNING_POINTS. -/
def isGameOver (s : GameState) : Bool :=
  s.players.any (fun p => p.points ≥ WINNING_POINTS)

/-- canReserveCard from `rules.ts`. -/
def canReserveCard (p : PlayerState) : Bool :=
  p.reservedCards.length < MAX_RESERVED_CARDS

/-- canClaimNoble from `rules.ts`: evaluates `canAfford` on the player raw
gem collection (`playerState.gems`) against the noble requirement. -/
def canClaimNoble (p : PlayerState) (noble : Noble) : Bool :=
  canAfford p.gems noble.requirement

/-- calculateGemDiscount from `rules.ts`: per colour, the number of
purchased cards granting that colour (gold-coloured cards ignored). -/
def calculateGemDiscount (p : PlayerState) : Gems :=
  p.purchasedCards.foldl
    (fun acc card =>
      match card.color with
      | .red => { acc with red := acc.red + 1 }
      | .blue => { acc with blue := acc.blue + 1 }
      | .green => { acc with green := acc.green + 1 }
      | .white => { acc with white := acc.white + 1 }
      | .black => { acc with black := acc.black + 1 }
      | .gold => acc)
    Gems.zero

/-- getEligibleNobles from `rules.ts`. -/
def getEligibleNobles (s : GameState) (playerIndex : Nat) : List Noble :=
  match s.players.get? playerIndex with
  | none => []
  | some p => s.nobles.filter (fun noble => canClaimNoble p noble)

/-- validateGemTake from `rules.ts`: selection size 1..3, the pool holds
each selected colour in the selected quantity, and the player can hold the
gems afterwards. -/
def validateGemTake (gems : List Color) (poolGems : Gems) (playerGems : Gems) : Bool :=
  if gems.length = 0 || gems.length > 3 then false
  else if gems.any (fun c => poolGems.get c < (countColor gems c : Int)) then false
  else canTakeGems playerGems gems

example : validateGemTake [.red, .red] ⟨2, 0, 0, 0, 0, 0⟩ Gems.zero = true := by decide

example : validateGemTake [.gold] ⟨0, 0, 0, 0, 0, 1⟩ Gems.zero = true := by decide

example : canAfford ⟨2, 0, 0, 0, 0, 1⟩ ⟨3, 0, 0, 0, 0, 0⟩ = true := by decide

/- ===== engine.ts: the game reducer ===== -/

/-- Pointwise update of the player at one index, mirroring the
`players.map((p, idx) => idx === i ? changed : p)` pattern of the source. -/
def updatePlayer : List PlayerState → Nat → (PlayerState → PlayerState) → List PlayerState
  | [], _, _ => []
  | p :: ps, 0, f => f p :: ps
  | p :: ps, i + 1, f => p :: updatePlayer ps i f

/-- Add a fixed amount to one colour of a gem collection. -/
def Gems.add1 (g : Gems) (c : Color) (n : Int) : Gems :=
  match c with
  | .red => { g with red := g.red + n }
  | .blue => { g with blue := g.blue + n }
  | .green => { g with green := g.green + n }
  | .white => { g with white := g.white + n }
  | .black => { g with black := g.black + n }
  | .gold => { g with gold := g.gold + n }

/-- Componentwise sum of two gem collections (addGems from `engine.ts`). -/
def addGems (g toAdd : Gems) : Gems :=
  ⟨g.red + toAdd.red, g.blue + toAdd.blue, g.green + toAdd.green,
   g.white + toAdd.white, g.black + toAdd.black, g.gold + toAdd.gold⟩

/-- Componentwise difference floored at 0 (subtractGems from `engine.ts`). -/
def subtractGems (g toSub : Gems) : Gems :=
  ⟨max 0 (g.red - toSub.red), max 0 (g.blue - toSub.blue),
   max 0 (g.green - toSub.green), max 0 (g.white - toSub.white),
   max 0 (g.black - toSub.black), max 0 (g.gold - toSub.gold)⟩

/-- Componentwise difference without flooring, as the direct field
arithmetic in handleTakeGems and handleDiscardGems does. -/
def subGemsExact (g toSub : Gems) : Gems :=
  ⟨g.red - toSub.red, g.blue - toSub.blue, g.green - toSub.green,
   g.white - toSub.white, g.black - toSub.black, g.gold - toSub.gold⟩

/-- The per-colour tally of a selection as a gem collection (the
`gemsToAdd` / `gemsToRemove` / `discardCounts` objects of `engine.ts`). -/
def tallyGems (gems : List Color) : Gems :=
  gems.foldl (fun acc c => acc.add1 c 1) Gems.zero

/-- handleTakeGems from `engine.ts`. -/
def handleTakeGems (s : GameState) (playerIndex : Nat) (gems : List Color) :
    Except String GameState :=
  match s.players.get? playerIndex with
  | none => .error "Invalid player index"
  | some p =>
    if ¬ validateGemTake gems s.gemPool p.gems then .error "Cannot take those gems"
    else
      let tally := tallyGems gems
      .ok { s with
        players := updatePlayer s.players playerIndex
          (fun q => { q with gems := addGems q.gems tally }),
        gemPool := subGemsExact s.gemPool tally }

/-- handleDiscardGems from `engine.ts`. -/
def handleDiscardGems (s : GameState) (playerIndex : Nat) (gems : List Color) :
    Except String GameState :=
  match s.players.get? playerIndex with
  | none => .error "Invalid player index"
  | some p =>
    match s.pendingDiscard with
    | none => .error "No pending discard for this player"
    | some pd =>
      if pd.playerIndex ≠ playerIndex then .error "No pending discard for this player"
      else if (gems.length : Int) ≠ pd.count then .error "Invalid discard count"
      else
        let tally := tallyGems gems
        if sixColors.any (fun c => p.gems.get c < tally.get c) then
          .error "Cannot discard gems not owned"
        else
          .ok { s with
            players := updatePlayer s.players playerIndex
              (fun q => { q with gems := subGemsExact q.gems tally }),
            gemPool := addGems s.gemPool tally,
            pendingDiscard := none }

/-- handleReserveCard from `engine.ts`: removes the card from the display
at the level of the card, refills that row from the deck, appends the card
to the reserved list, grants one gold to the player, and decrements the
pool gold floored at zero. -/
def handleReserveCard (s : GameState) (playerIndex : Nat) (card : Card) :
    Except String GameState :=
  match s.players.get? playerIndex with
  | none => .error "Invalid player index"
  | some p =>
    if p.reservedCards.length ≥ MAX_RESERVED_CARDS then
      .error "Maximum reserved cards reached"
    else if ¬ (s.displayedCards.at card.level).any (fun c => c.id = card.id) then
      .error "Card is not in displayed cards"
    else
      let removed := (s.displayedCards.at card.level).filter (fun c => ¬ c.id = card.id)
      let remainingInDeck := s.deck.at card.level
      let refilled :=
        match remainingInDeck with
        | [] => removed
        | cardToAdd :: _ => removed ++ [cardToAdd]
      let updatedDisplayed := s.displayedCards.setAt card.level refilled
      let updatedDeck := s.deck.setAt card.level ((s.deck.at card.level).drop 1)
      .ok { s with
        players := updatePlayer s.players playerIndex
          (fun q => { q with
            reservedCards := q.reservedCards ++ [card],
            gems := { q.gems with gold := q.gems.gold + 1 } }),
        displayedCards := updatedDisplayed,
        deck := updatedDeck,
        gemPool := { s.gemPool with gold := max 0 (s.gemPool.gold - 1) } }

/-- Per-colour spend rule of calculateGemsToSpend: the whole needed amount
when affordable from the colour, otherwise everything available (the
shortfall is then charged to gold). -/
def spendAmount (available needed : Int) : Int :=
  if available ≥ needed then needed else available

/-- calculateGemsToSpend from `engine.ts`: colours first, gold covers the
accumulated shortfall. -/
def calculateGemsToSpend (playerGems cost discount : Gems) : Gems :=
  let amount := fun c => spendAmount (playerGems.get c) (cost.get c - discount.get c)
  let goldNeeded := fiveColors.foldl
    (fun acc c =>
      let needed := cost.get c - discount.get c
      if playerGems.get c ≥ needed then acc else acc + (needed - playerGems.get c)) 0
  ⟨amount .red, amount .blue, amount .green, amount .white, amount .black, goldNeeded⟩

/-- handlePurchaseCard from `engine.ts`. -/
def handlePurchaseCard (s : GameState) (playerIndex : Nat) (card : Card) :
    Except String GameState :=
  match s.players.get? playerIndex with
  | none => .error "Invalid player index"
  | some p =>
    if ¬ canPurchaseCard p card then .error "Cannot afford this card"
    else
      let discount := calculateGemDiscount p
      let gemsToSpend := calculateGemsToSpend p.gems card.cost discount
      let inDisplayed := (s.displayedCards.at card.level).any (fun c => c.id = card.id)
      let inReserved := p.reservedCards.any (fun c => c.id = card.id)
      if ¬ inDisplayed ∧ ¬ inReserved then
        .error "Card not found in displayed or reserved cards"
      else
        let updatedDisplayed :=
          if inDisplayed then
            let removed := (s.displayedCards.at card.level).filter (fun c => ¬ c.id = card.id)
            let refilled :=
              match s.deck.at card.level with
              | [] => removed
              | refillCard :: _ => removed ++ [refillCard]
            s.displayedCards.setAt card.level refilled
          else s.displayedCards
        let updatedReserved :=
          if inDisplayed then p.reservedCards
          else p.reservedCards.filter (fun c => ¬ c.id = card.id)
        let updatedDeck :=
          if inDisplayed then s.deck.setAt card.level ((s.deck.at card.level).drop 1)
          else s.deck
        .ok { s with
          players := updatePlayer s.players playerIndex
            (fun q => { q with
              purchasedCards := q.purchasedCards ++ [card],
              reservedCards := updatedReserved,
              gems := subtractGems q.gems gemsToSpend,
              points := q.points + card.points }),
          displayedCards := updatedDisplayed,
          deck := updatedDeck,
          gemPool := addGems s.gemPool gemsToSpend }

/-- handleClaimNoble from `engine.ts`. -/
def handleClaimNoble (s : GameState) (playerIndex : Nat) (noble : Noble) :
    Except String GameState :=
  match s.players.get? playerIndex with
  | none => .error "Invalid player index"
  | some p =>
    if ¬ canClaimNoble p noble then .error "Cannot claim this noble"
    else
      .ok { s with
        players := updatePlayer s.players playerIndex
          (fun q => { q with
            nobles := q.nobles ++ [noble],
            points := q.points + noble.points }),
        nobles := s.nobles.filter (fun n => ¬ n.id = noble.id) }

/-- Sequential auto-award of the eligible nobles inside handleEndTurn; a
failing claim propagates as the thrown error does in the source loop. -/
def claimNoblesFold (s : GameState) (playerIndex : Nat) :
    List Noble → Except String GameState
  | [] => .ok s
  | noble :: rest =>
    match handleClaimNoble s playerIndex noble with
    | .error e => .error e
    | .ok s' => claimNoblesFold s' playerIndex rest

/-- handleEndTurn from `engine.ts`: rejects if a discard is pending,
auto-awards every eligible noble, advances the actor index modulo the
player count, promotes setup to active after the round closes, and jumps
straight to finished whenever isGameOver holds. -/
def handleEndTurn (s : GameState) (playerIndex : Nat) : Except String GameState :=
  match s.pendingDiscard with
  | some _ => .error "Cannot end turn while discard is pending"
  | none =>
    match claimNoblesFold s playerIndex (getEligibleNobles s playerIndex) with
    | .error e => .error e
    | .ok updatedState =>
      let nextPlayerIndex := (playerIndex + 1) % updatedState.players.length
      let afterSetup :=
        if nextPlayerIndex = 0 ∧ updatedState.gamePhase = Phase.setup then Phase.active
        else updatedState.gamePhase
      let newGamePhase := if isGameOver updatedState then Phase.finished else afterSetup
      .ok { updatedState with
        currentPlayerIndex := nextPlayerIndex,
        gamePhase := newGamePhase,
        pendingDiscard := none }

/-- gameReducer from `engine.ts`: total dispatch over the action variants. -/
def gameReducer (s : GameState) : GameAction → Except String GameState
  | .takeGems i gems => handleTakeGems s i gems
  | .discardGems i gems => handleDiscardGems s i gems
  | .reserveCard i card => handleReserveCard s i card
  | .purchaseCard i card => handlePurchaseCard s i card
  | .claimNoble i noble => handleClaimNoble s i noble
  | .endTurn i => handleEndTurn s i

/- ===== TurnController (turnController.ts) ===== -/

/-- Ordered pairs i < j of list positions, as the nested loops of
getValidGemTakes produce them. -/
def distinctPairs : List Color → List (List Color)
  | [] => []
  | x :: xs => xs.map (fun y => [x, y]) ++ distinctPairs xs

/-- Ordered triples i < j < k of list positions, as the triple nested
loops of getValidGemTakes produce them. -/
def distinctTriples : List Color → List (List Color)
  | [] => []
  | x :: xs => (distinctPairs xs).map (fun p => x :: p) ++ distinctTriples xs

/-- getValidGemTakes from `turnController.ts` (private helper): two-of-one
colour gated by four in the pool, all three-distinct-colour subsets when at
least three colours are available, otherwise the degraded one- and
two-colour fallbacks; every candidate is filtered by validateGemTake. -/
def getValidGemTakes (s : GameState) (playerIndex : Nat) (player : PlayerState) :
    List GameAction :=
  let availableGems := fiveColors.filter (fun c => s.gemPool.get c > 0)
  let twoSame := availableGems.filterMap (fun g =>
    if s.gemPool.get g ≥ 4 ∧ validateGemTake [g, g] s.gemPool player.gems then
      some (GameAction.takeGems playerIndex [g, g])
    else none)
  let rest :=
    if availableGems.length ≥ 3 then
      (distinctTriples availableGems).filterMap (fun gems =>
        if validateGemTake gems s.gemPool player.gems then
          some (GameAction.takeGems playerIndex gems)
        else none)
    else if availableGems.length = 2 then
      (match availableGems with
       | a :: b :: _ =>
         if validateGemTake [a, b] s.gemPool player.gems then
           [GameAction.takeGems playerIndex [a, b]]
         else []
       | _ => []) ++
      availableGems.filterMap (fun g =>
        if validateGemTake [g] s.gemPool player.gems then
          some (GameAction.takeGems playerIndex [g])
        else none)
    else if availableGems.length = 1 then
      availableGems.filterMap (fun g =>
        if validateGemTake [g] s.gemPool player.gems then
          some (GameAction.takeGems playerIndex [g])
        else none)
    else []
  twoSame ++ rest

/-- getValidReservations from `turnController.ts`: every displayed card,
provided the player is under the reservation cap. -/
def getValidReservations (s : GameState) (playerIndex : Nat) (player : PlayerState) :
    List GameAction :=
  if player.reservedCards.length ≥ MAX_RESERVED_CARDS then []
  else
    (s.displayedCards.level1 ++ s.displayedCards.level2 ++ s.displayedCards.level3).map
      (fun card => GameAction.reserveCard playerIndex card)

/-- getValidPurchases from `turnController.ts`: affordable displayed cards
then affordable reserved cards. -/
def getValidPurchases (s : GameState) (playerIndex : Nat) (player : PlayerState) :
    List GameAction :=
  ((s.displayedCards.level1 ++ s.displayedCards.level2 ++ s.displayedCards.level3).filterMap
    (fun card =>
      if canPurchaseCard player card then some (GameAction.purchaseCard playerIndex card)
      else none)) ++
  (player.reservedCards.filterMap
    (fun card =>
      if canPurchaseCard player card then some (GameAction.purchaseCard playerIndex card)
      else none))

/-- getValidNobleClaims from `turnController.ts`: nobles of the pool the
player does not already own and whose requirement canAfford grants against
the player raw gems. -/
def getValidNobleClaims (s : GameState) (playerIndex : Nat) (player : PlayerState) :
    List GameAction :=
  s.nobles.filterMap (fun noble =>
    if player.nobles.any (fun n => n.id = noble.id) then none
    else if canAfford player.gems noble.requirement then
      some (GameAction.claimNoble playerIndex noble)
    else none)

/-- getValidActions from `turnController.ts`.  When a discard is pending it
short-circuits before any player lookup; otherwise the source reads
`state.players[playerIndex]` (a TypeError on an out-of-range index, here
modelled as the empty list — no theorem relies on that case). -/
def getValidActions (s : GameState) (playerIndex : Nat) : List GameAction :=
  match s.pendingDiscard with
  | some pd =>
    if pd.playerIndex ≠ playerIndex then []
    else [GameAction.discardGems playerIndex []]
  | none =>
    match s.players.get? playerIndex with
    | none => []
    | some player =>
      GameAction.endTurn playerIndex ::
        (getValidGemTakes s playerIndex player ++
         getValidReservations s playerIndex player ++
         getValidPurchases s playerIndex player ++
         getValidNobleClaims s playerIndex player)

/-- Multiset equality of two gem selections.  The source compares
`JSON.stringify` of the two sorted arrays, which agrees exactly with
per-colour count equality. -/
def sameGemSelection (a b : List Color) : Bool :=
  sixColors.all (fun c => countColor a c = countColor b c)

/-- The per-element comparison of isActionValidAgainstList from
`turnController.ts`: same variant, same actor, and payload identified by
id (cards, nobles) or by sorted contents (gem selections). -/
def matchesAction (action valid : GameAction) : Bool :=
  match action, valid with
  | .endTurn i, .endTurn j => i = j
  | .takeGems i a, .takeGems j b => i = j ∧ sameGemSelection b a
  | .discardGems i _, .discardGems j _ => i = j
  | .reserveCard i c, .reserveCard j d => i = j ∧ d.id = c.id
  | .purchaseCard i c, .purchaseCard j d => i = j ∧ d.id = c.id
  | .claimNoble i n, .claimNoble j m => i = j ∧ m.id = n.id
  | _, _ => false

/-- isActionValidAgainstList from `turnController.ts`. -/
def isActionValidAgainstList (action : GameAction) (validActions : List GameAction) : Bool :=
  validActions.any (fun v => matchesAction action v)

/-- isActionValid from `turnController.ts`: with a pending discard only a
discard of the exact pending count by the owing player passes; otherwise
the action must match the valid-action list. -/
def isActionValid (s : GameState) (action : GameAction)
    (validActions : List GameAction) : Bool :=
  match s.pendingDiscard with
  | some pd =>
    match action with
    | .discardGems i gems => i = pd.playerIndex ∧ ((gems.length : Int) = pd.count)
    | _ => false
  | none =>
    match action with
    | .discardGems _ _ => false
    | _ => isActionValidAgainstList action validActions

/-- advanceToNextPlayer from `turnController.ts`. -/
def advanceToNextPlayer (s : GameState) : GameState :=
  { s with currentPlayerIndex := (s.currentPlayerIndex + 1) % s.players.length }

/-- Winner selection of checkEndGame: `players.reduce` keeping the player
with strictly more points, so the first-enumerated player holding the
maximum wins a tie. -/
def pickWinner : List PlayerState → Option PlayerState
  | [] => none
  | p :: ps => some (ps.foldl (fun best cur => if cur.points > best.points then cur else best) p)

/-- The bounded advance loop of checkEndGame: up to `fuel` steps of
advanceToNextPlayer, stopping early when the actor index returns to the
trigger index. -/
def endGameAdvance (trigger : Nat) : Nat → GameState → GameState
  | 0, s => s
  | fuel + 1, s =>
    let s' := advanceToNextPlayer s
    if s'.currentPlayerIndex = trigger then s'
    else endGameAdvance trigger fuel s'

/-- checkEndGame from `turnController.ts`. -/
def checkEndGame (s : GameState) : GameState :=
  if (s.players.any (fun p => p.points ≥ WINNING_POINTS)) ∧ s.gamePhase = Phase.active then
    let withPhase := { s with gamePhase := Phase.endGame }
    let triggerIndex := withPhase.currentPlayerIndex
    let advanced := endGameAdvance triggerIndex (withPhase.players.length - 1) withPhase
    if advanced.currentPlayerIndex = triggerIndex then
      { advanced with gamePhase := Phase.finished, winner := pickWinner advanced.players }
    else advanced
  else if s.gamePhase = Phase.endGame then
    match s.players.findIdx? (fun p => p.points ≥ WINNING_POINTS) with
    | some triggerIndex =>
      if s.currentPlayerIndex = triggerIndex then
        { s with gamePhase := Phase.finished, winner := pickWinner s.players }
      else s
    | none => s
  else s

/-- Install of the pending-discard obligation executeTurn performs after a
non-end-turn action: count = gem excess over the cap, only when positive. -/
def installPendingDiscard (s : GameState) (playerIndex : Nat) : GameState :=
  match s.players.get? playerIndex with
  | none => s
  | some p =>
    let excess := countGems p.gems - MAX_GEMS_PER_PLAYER
    if excess > 0 then
      { s with pendingDiscard := some ⟨playerIndex, excess⟩ }
    else s

/-- Recognizer for the end-turn variant. -/
def GameAction.isEndTurn : GameAction → Bool
  | .endTurn _ => true
  | _ => false

/-- executeTurn from `turnController.ts`, the synchronous part applied to
the submitted action: actor check, validity check, reducer application,
pending-discard install for non-end-turn actions, and checkEndGame on
end-turn.  The chained asynchronous non-human turns that follow an
end-turn are modelled separately by aiStep. -/
def executeTurnStep (s : GameState) (action : GameAction) : Except String GameState :=
  if action.playerIndex ≠ s.currentPlayerIndex then
    .error "Cannot execute action for player"
  else if ¬ isActionValid s action (getValidActions s action.playerIndex) then
    .error "Invalid action"
  else
    match gameReducer s action with
    | .error e => .error e
    | .ok newState =>
      if action.isEndTurn then
        .ok (checkEndGame newState)
      else
        .ok (installPendingDiscard newState action.playerIndex)

/-- applyActionAndEndTurn from `turnController.ts`: apply one action via
the reducer, then close the turn — a discard is followed by an automatic
end-turn once the obligation is cleared, any other non-end-turn action is
followed by an automatic end-turn unless it produced a gem excess, in
which case the obligation is installed instead. -/
def applyActionAndEndTurn (s : GameState) (action : GameAction) :
    Except String GameState :=
  match gameReducer s action with
  | .error e => .error e
  | .ok newState =>
    match action with
    | .discardGems i _ =>
      (match newState.pendingDiscard with
       | none => gameReducer newState (.endTurn i)
       | some _ => .ok newState)
    | .endTurn _ => .ok newState
    | _ =>
      match newState.players.get? action.playerIndex with
      | none => .ok newState
      | some p =>
        let excess := countGems p.gems - MAX_GEMS_PER_PLAYER
        if excess > 0 then
          .ok { newState with pendingDiscard := some ⟨action.playerIndex, excess⟩ }
        else
          gameReducer newState (.endTurn action.playerIndex)

/-- The action actually applied for a non-human actor, from the decision
branch of executeAITurn: a thrown decision (here an `Except.error`) falls
back to end-turn, and a proposal failing isActionValid is replaced by
end-turn. -/
def aiResolveAction (s : GameState) (decided : Except String GameAction) : GameAction :=
  let proposed :=
    match decided with
    | .ok a => a
    | .error _ => GameAction.endTurn s.currentPlayerIndex
  if isActionValid s proposed (getValidActions s s.currentPlayerIndex) then proposed
  else GameAction.endTurn s.currentPlayerIndex

/-- One iteration of the executeAITurn loop for an actor whose decision
has been computed: resolve the proposal, apply it with the automatic
end-turn, then checkEndGame. -/
def aiStep (s : GameState) (decided : Except String GameAction) :
    Except String GameState :=
  match applyActionAndEndTurn s (aiResolveAction s decided) with
  | .error e => .error e
  | .ok s' => .ok (checkEndGame s')

/- ===== Spec-modelled comparison predicate for claim C3 ===== -/

/-- Modelled from the spec: the legality predicate the specification
ascribes to validateTake — either exactly two of one non-wildcard colour
with at least four of it in the pool, or one to three distinct
non-wildcard colours; plus pool availability and the post-take cap.  This
definition follows the words of the spec, for comparison with
validateGemTake which is translated from the source. -/
def specValidateTake (gems : List Color) (pool player : Gems) : Bool :=
  let poolHolds := gems.all (fun c => (countColor gems c : Int) ≤ pool.get c)
  let capOk : Bool := countGems player + gems.length ≤ MAX_GEMS_PER_PLAYER
  let twoSame : Bool :=
    match gems with
    | [a, b] => a = b ∧ a ≠ Color.gold ∧ pool.get a ≥ 4
    | _ => false
  let distinctTake : Bool :=
    1 ≤ gems.length ∧ gems.length ≤ 3 ∧ gems.Nodup ∧ ¬ gems.any (fun c => c = Color.gold)
  (twoSame || distinctTake) && poolHolds && capOk

/- ===== Helper lemmas ===== -/

theorem get?_updatePlayer_self {ps : List PlayerState} {i : Nat} {p : PlayerState}
    (f : PlayerState → PlayerState) (h : ps.get? i = some p) :
    (updatePlayer ps i f).get? i = some (f p) := by
  induction ps generalizing i with
  | nil => exact Option.noConfusion h
  | cons q qs ih =>
    cases i with
    | zero =>
      have hq : q = p := Option.some.inj h
      subst hq
      rfl
    | succ n => exact ih h

theorem get?_updatePlayer_ne {ps : List PlayerState} {i j : Nat}
    (f : PlayerState → PlayerState) (h : j ≠ i) :
    (updatePlayer ps i f).get? j = ps.get? j := by
  induction ps generalizing i j with
  | nil => cases i <;> rfl
  | cons q qs ih =>
    cases i with
    | zero =>
      cases j with
      | zero => exact absurd rfl h
      | succ m => rfl
    | succ n =>
      cases j with
      | zero => rfl
      | succ m => exact ih (fun hc => h (congrArg Nat.succ hc))

theorem length_updatePlayer (ps : List PlayerState) (i : Nat)
    (f : PlayerState → PlayerState) : (updatePlayer ps i f).length = ps.length := by
  induction ps generalizing i with
  | nil => cases i <;> rfl
  | cons q qs ih => cases i with
    | zero => rfl
    | succ n => simp [updatePlayer, ih]

theorem get_addGems (a b : Gems) (c : Color) :
    (addGems a b).get c = a.get c + b.get c := by
  cases c <;> rfl

theorem get_subGemsExact (a b : Gems) (c : Color) :
    (subGemsExact a b).get c = a.get c - b.get c := by
  cases c <;> rfl

theorem get_subtractGems (a b : Gems) (c : Color) :
    (subtractGems a b).get c = max 0 (a.get c - b.get c) := by
  cases c <;> rfl

theorem spendAmount_le (available needed : Int) :
    spendAmount available needed ≤ available := by
  unfold spendAmount; split <;> omega

/- ===== Claim C9 ===== -/

/-- Claim C9: canAfford returns true iff the summed per-colour shortfall
max(0, cost minus held) over the five colours is at most the wildcard
(gold) count.  The embedding is a pure function, so neither argument is
mutated. -/
theorem c9_canAfford_characterization (g cost : Gems) :
    canAfford g cost = true ↔
      max 0 (cost.red - g.red) + max 0 (cost.blue - g.blue) +
      max 0 (cost.green - g.green) + max 0 (cost.white - g.white) +
      max 0 (cost.black - g.black) ≤ g.gold := by
  simp only [canAfford, fiveColors, List.foldl, Gems.get, decide_eq_true_eq]
  split_ifs <;> omega

/-- Witness for C9 at a concrete input: two red and one gold afford a cost
of three red. -/
theorem c9_canAfford_witness :
    canAfford ⟨2, 0, 0, 0, 0, 1⟩ ⟨3, 0, 0, 0, 0, 0⟩ = true :=
  (c9_canAfford_characterization ⟨2, 0, 0, 0, 0, 1⟩ ⟨3, 0, 0, 0, 0, 0⟩).mpr (by decide)

/- ===== Claim C2 ===== -/

/-- A red-bonus card with empty cost, for the C2 evaluation. -/
def c2RedCard : Card := ⟨"c2-red", Level.one, 0, Color.red, Gems.zero⟩

/-- A player owning three purchased red-bonus cards and no gems at all. -/
def c2BonusPlayer : PlayerState :=
  ⟨"p-bonus", "Bonus", Gems.zero, [c2RedCard, c2RedCard, c2RedCard], [], 0, [], false⟩

/-- A player holding two raw red gems and one gold, with no purchased
cards at all. -/
def c2RawPlayer : PlayerState :=
  ⟨"p-raw", "Raw", ⟨2, 0, 0, 0, 0, 1⟩, [], [], 0, [], false⟩

/-- A noble requiring three red. -/
def c2Noble : Noble := ⟨"n-red3", 3, ⟨3, 0, 0, 0, 0, 0⟩⟩

/-- Claim C2 is right and the code is wrong: a player whose bonus totals
from purchased cards meet the noble requirement is refused by
canClaimNoble, while a player with no purchased cards at all claims the
same noble out of raw gems plus a wildcard — canClaimNoble evaluates
canAfford on the raw gem collection, contradicting its own documentation
that bonuses from purchased cards are what is checked. -/
theorem c2_code_eval :
    (fiveColors.all (fun c =>
      c2Noble.requirement.get c ≤ (calculateGemDiscount c2BonusPlayer).get c) = true) ∧
    canClaimNoble c2BonusPlayer c2Noble = false ∧
    canClaimNoble c2RawPlayer c2Noble = true := by
  decide

/- ===== Claim C1 ===== -/

/-- Two-player mid-game state: the current actor has just reached the win
threshold of 15 prestige while the phase is active. -/
def c1State : GameState :=
  { players :=
      [⟨"human-1", "You", Gems.zero, [], [], 15, [], false⟩,
       ⟨"ai-1", "AI-1", Gems.zero, [], [], 10, [], true⟩],
    currentPlayerIndex := 0,
    deck := ⟨[], [], []⟩,
    nobles := [],
    displayedCards := ⟨[], [], []⟩,
    gemPool := ⟨4, 4, 4, 4, 4, 5⟩,
    gamePhase := Phase.active }

/-- The state executeTurn actually produces for the end-turn of the
triggering player. -/
def c1Result : GameState :=
  match executeTurnStep c1State (GameAction.endTurn 0) with
  | .ok s => s
  | .error _ => c1State

/-- Claim C1 is right and the code is wrong: when the triggering player
ends the turn at 15 prestige in the active phase, handleEndTurn jumps the
phase straight to finished — never to endGame, granting no final round to
the other player — and the winner field is never set (checkEndGame only
assigns a winner from its unreachable endGame path).  This contradicts the
handleEndTurn documentation, which promises the transition active to
endGame at the winning threshold. -/
theorem c1_code_eval :
    executeTurnStep c1State (GameAction.endTurn 0) = .ok c1Result ∧
    c1Result.gamePhase = Phase.finished ∧
    c1Result.gamePhase ≠ Phase.endGame ∧
    c1Result.winner = none ∧
    c1Result.currentPlayerIndex = 1 := by
  refine ⟨rfl, by decide, by decide, by decide, by decide⟩

/- ===== Claim C3 ===== -/

/-- Pool holding a single gem of every colour. -/
def c3PoolOnes : Gems := ⟨1, 1, 1, 1, 1, 1⟩

/-- Pool holding three red (below the four-gem gate). -/
def c3PoolRed3 : Gems := ⟨3, 0, 0, 0, 0, 0⟩

/-- Claim C3 fails on the code: validateGemTake accepts a lone wildcard
selection and a two-of-one-colour selection from a pool of only three,
both of which the claimed characterization rejects. -/
theorem c3_counterexample :
    validateGemTake [Color.gold] c3PoolOnes Gems.zero = true ∧
    specValidateTake [Color.gold] c3PoolOnes Gems.zero = false ∧
    validateGemTake [Color.red, Color.red] c3PoolRed3 Gems.zero = true ∧
    specValidateTake [Color.red, Color.red] c3PoolRed3 Gems.zero = false := by
  decide

/-- Claim C3 amended: validateGemTake returns true iff the selection has
one to three gems of any colours (wildcard included, duplicates
unrestricted), the pool holds each selected colour in the selected
quantity, and the post-take total respects the cap of 10; the
two-of-one-colour gate of four in the pool, the distinctness requirement
and the wildcard exclusion are enforced only by the enumeration in
getValidGemTakes, not by validateGemTake. -/
theorem c3_amended (gems : List Color) (pool player : Gems) :
    validateGemTake gems pool player = true ↔
      (1 ≤ gems.length ∧ gems.length ≤ 3 ∧
       (∀ c ∈ gems, (countColor gems c : Int) ≤ pool.get c) ∧
       countGems player + gems.length ≤ MAX_GEMS_PER_PLAYER) := by
  unfold validateGemTake canTakeGems
  by_cases h0 : gems.length = 0
  · simp [h0]
  · by_cases h3 : gems.length > 3
    · simp [h3]
    · by_cases hp : ∀ c ∈ gems, (countColor gems c : Int) ≤ pool.get c
      · have hany : gems.any (fun c => decide (pool.get c < (countColor gems c : Int))) = false := by
          simp only [List.any_eq_false, decide_eq_true_eq, not_lt]
          exact hp
        simp only [h0, h3, hany, MAX_GEMS_PER_PLAYER]
        simp [h0, h3]
        constructor
        · intro hcap
          exact ⟨by omega, by omega, hp, hcap⟩
        · intro h
          exact h.2.2.2
      · have hany : gems.any (fun c => decide (pool.get c < (countColor gems c : Int))) = true := by
          simp only [List.any_eq_true, decide_eq_true_eq]
          push_neg at hp
          obtain ⟨c, hc, hlt⟩ := hp
          exact ⟨c, hc, by omega⟩
        simp [h0, h3, hany, hp]

/-- Witness for the amended C3 at a concrete input: a single red from a
one-red pool is a valid take. -/
theorem c3_amended_witness :
    validateGemTake [Color.red] ⟨1, 0, 0, 0, 0, 0⟩ Gems.zero = true :=
  (c3_amended [Color.red] ⟨1, 0, 0, 0, 0, 0⟩ Gems.zero).mpr (by decide)

/- ===== Claim C6 ===== -/

/-- Claim C6: reserving a displayed card while under the reservation cap
always grants the player exactly one wildcard (gold) gem — also when the
pool has none — while the pool gold is decremented floored at zero. -/
theorem c6_reserve_grants_wildcard (s : GameState) (i : Nat) (card : Card) (p : PlayerState)
    (hget : s.players.get? i = some p)
    (hcap : p.reservedCards.length < MAX_RESERVED_CARDS)
    (hdisp : (s.displayedCards.at card.level).any (fun c => c.id = card.id) = true) :
    ∃ s' p', handleReserveCard s i card = .ok s' ∧
      s'.players.get? i = some p' ∧
      p'.gems.gold = p.gems.gold + 1 ∧
      s'.gemPool.gold = max 0 (s.gemPool.gold - 1) := by
  have hcap' : ¬ (p.reservedCards.length ≥ MAX_RESERVED_CARDS) := by
    simp only [MAX_RESERVED_CARDS] at hcap ⊢
    omega
  simp only [handleReserveCard, hget]
  rw [if_neg hcap']
  rw [if_neg (by simp [hdisp])]
  exact ⟨_, _, rfl, get?_updatePlayer_self _ hget, rfl, rfl⟩

/-- Witness for C6: a concrete reservation from a pool holding zero gold
still grants the gold gem, and the pool stays at zero. -/
def c6Card : Card := ⟨"c6-card", Level.two, 1, Color.blue, ⟨0, 0, 0, 0, 0, 0⟩⟩

/-- Concrete state for the C6 witness: one player, empty gold pool, the
card on display at level 2. -/
def c6State : GameState :=
  { players := [⟨"human-1", "You", Gems.zero, [], [], 0, [], false⟩],
    currentPlayerIndex := 0,
    deck := ⟨[], [], []⟩,
    nobles := [],
    displayedCards := ⟨[], [c6Card], []⟩,
    gemPool := ⟨4, 4, 4, 4, 4, 0⟩,
    gamePhase := Phase.active }

theorem c6_reserve_grants_wildcard_witness :
    ∃ s' p', handleReserveCard c6State 0 c6Card = .ok s' ∧
      s'.players.get? 0 = some p' ∧
      p'.gems.gold = (0 : Int) + 1 ∧
      s'.gemPool.gold = max 0 ((0 : Int) - 1) :=
  c6_reserve_grants_wildcard c6State 0 c6Card
    ⟨"human-1", "You", Gems.zero, [], [], 0, [], false⟩ rfl (by decide) (by decide)

/- ===== Claim C10 ===== -/

/-- Claim C10: purchasing a card held in the reserved list (whose id is
not on display at the level of the card) leaves the displayed rows and the
undrawn decks of every tier identical and every other player untouched. -/
theorem c10_reserved_purchase_frame (s : GameState) (i : Nat) (card : Card) (p : PlayerState)
    (hget : s.players.get? i = some p)
    (hafford : canPurchaseCard p card = true)
    (hnotdisp : (s.displayedCards.at card.level).any (fun c => c.id = card.id) = false)
    (hres : p.reservedCards.any (fun c => c.id = card.id) = true) :
    ∃ s', handlePurchaseCard s i card = .ok s' ∧
      s'.displayedCards = s.displayedCards ∧
      s'.deck = s.deck ∧
      ∀ j, j ≠ i → s'.players.get? j = s.players.get? j := by
  simp only [handlePurchaseCard, hget]
  rw [if_neg (by simp [hafford])]
  simp only [hnotdisp, hres]
  rw [if_neg (by simp)]
  simp only [Bool.false_eq_true, if_false]
  exact ⟨_, rfl, rfl, rfl, fun j hj => get?_updatePlayer_ne _ hj⟩

/-- Reserved card for the C10 witness, affordable for free. -/
def c10Card : Card := ⟨"c10-card", Level.three, 4, Color.black, ⟨0, 0, 0, 0, 0, 0⟩⟩

/-- Player for the C10 witness holding the card in reserve. -/
def c10Player : PlayerState := ⟨"human-1", "You", Gems.zero, [], [c10Card], 0, [], false⟩

/-- Second player for the C10 witness, untouched by the purchase. -/
def c10Other : PlayerState := ⟨"ai-1", "AI-1", Gems.zero, [], [], 0, [], true⟩

/-- Concrete state for the C10 witness. -/
def c10State : GameState :=
  { players := [c10Player, c10Other],
    currentPlayerIndex := 0,
    deck := ⟨[], [], []⟩,
    nobles := [],
    displayedCards := ⟨[], [], []⟩,
    gemPool := ⟨4, 4, 4, 4, 4, 5⟩,
    gamePhase := Phase.active }

theorem c10_reserved_purchase_frame_witness :
    ∃ s', handlePurchaseCard c10State 0 c10Card = .ok s' ∧
      s'.displayedCards = c10State.displayedCards ∧
      s'.deck = c10State.deck ∧
      ∀ j, j ≠ 0 → s'.players.get? j = c10State.players.get? j :=
  c10_reserved_purchase_frame c10State 0 c10Card c10Player rfl (by decide) (by decide) (by decide)

/- ===== Claim C5 ===== -/

/-- Total of one colour held across all players. -/
def playersGemSum (ps : List PlayerState) (c : Color) : Int :=
  (ps.map (fun p => p.gems.get c)).sum

/-- Total of one colour in the whole state: pool plus every player. -/
def colorTotal (s : GameState) (c : Color) : Int :=
  s.gemPool.get c + playersGemSum s.players c

theorem playersGemSum_updatePlayer {ps : List PlayerState} {i : Nat} {p : PlayerState}
    (f : PlayerState → PlayerState) (h : ps.get? i = some p) (c : Color) :
    playersGemSum (updatePlayer ps i f) c
      = playersGemSum ps c + ((f p).gems.get c - p.gems.get c) := by
  induction ps generalizing i with
  | nil => exact Option.noConfusion h
  | cons q qs ih =>
    cases i with
    | zero =>
      have hq : q = p := Option.some.inj h
      subst hq
      simp [updatePlayer, playersGemSum]
      ring
    | succ n =>
      have hrec := ih (i := n) h
      simp only [updatePlayer, playersGemSum, List.map, List.sum_cons] at hrec ⊢
      omega

theorem get_calculateGemsToSpend (pg cost disc : Gems) (c : Color) (h : c ≠ Color.gold) :
    (calculateGemsToSpend pg cost disc).get c
      = spendAmount (pg.get c) (cost.get c - disc.get c) := by
  cases c
  case gold => exact absurd rfl h
  all_goals rfl

theorem max_zero_sub_spendAmount (a n : Int) :
    max 0 (a - spendAmount a n) = a - spendAmount a n := by
  have := spendAmount_le a n
  omega

/-- Claim C5: for the take, discard and purchase transitions, every
non-wildcard colour satisfies conservation — the pool count plus all
player holdings of that colour is unchanged by any non-throwing
application of the reducer. -/
theorem c5_color_conservation (s : GameState) (a : GameAction) (s' : GameState) (c : Color)
    (hred : gameReducer s a = .ok s')
    (hshape : (∃ i g, a = GameAction.takeGems i g) ∨
      (∃ i g, a = GameAction.discardGems i g) ∨
      (∃ i k, a = GameAction.purchaseCard i k))
    (hc : c ≠ Color.gold) :
    colorTotal s' c = colorTotal s c := by
  rcases hshape with ⟨i, g, rfl⟩ | ⟨i, g, rfl⟩ | ⟨i, k, rfl⟩
  · -- TAKE_GEMS
    cases hget : s.players.get? i with
    | none =>
      simp only [gameReducer, handleTakeGems, hget] at hred
      exact Except.noConfusion hred
    | some p =>
      cases hval : validateGemTake g s.gemPool p.gems with
      | false =>
        simp only [gameReducer, handleTakeGems, hget, hval] at hred
        exact Except.noConfusion hred
      | true =>
        simp only [gameReducer, handleTakeGems, hget, hval, Bool.true_eq_false,
          not_true, not_false_iff, if_true, if_false, ite_false, ite_true] at hred
        injection hred with hs'
        subst hs'
        unfold colorTotal
        rw [playersGemSum_updatePlayer _ hget c]
        simp only [get_addGems, get_subGemsExact]
        ring
  · -- DISCARD_GEMS
    cases hget : s.players.get? i with
    | none =>
      simp only [gameReducer, handleDiscardGems, hget] at hred
      exact Except.noConfusion hred
    | some p =>
      cases hpd : s.pendingDiscard with
      | none =>
        simp only [gameReducer, handleDiscardGems, hget, hpd] at hred
        exact Except.noConfusion hred
      | some pd =>
        by_cases hpi : pd.playerIndex = i
        case neg =>
          simp [gameReducer, handleDiscardGems, hget, hpd, hpi] at hred
          split at hred <;> exact Except.noConfusion hred
        case pos =>
        by_cases hlen : (g.length : Int) = pd.count
        case neg =>
          simp [gameReducer, handleDiscardGems, hget, hpd, hpi, hlen] at hred
          split at hred <;> exact Except.noConfusion hred
        case pos =>
          simp only [gameReducer, handleDiscardGems, hget, hpd] at hred
          rw [if_neg (by simp [hpi]), if_neg (by simp [hlen])] at hred
          split at hred
          · exact Except.noConfusion hred
          · injection hred with hs'
            subst hs'
            unfold colorTotal
            rw [playersGemSum_updatePlayer _ hget c]
            simp only [get_addGems, get_subGemsExact]
            ring
  · -- PURCHASE_CARD
    cases hget : s.players.get? i with
    | none =>
      simp only [gameReducer, handlePurchaseCard, hget] at hred
      exact Except.noConfusion hred
    | some p =>
      cases haff : canPurchaseCard p k with
      | false =>
        simp only [gameReducer, handlePurchaseCard, hget] at hred
        rw [if_pos (by simp [haff])] at hred
        exact Except.noConfusion hred
      | true =>
        simp only [gameReducer, handlePurchaseCard, hget] at hred
        rw [if_neg (by simp [haff])] at hred
        split at hred
        · exact Except.noConfusion hred
        · injection hred with hs'
          subst hs'
          unfold colorTotal
          rw [playersGemSum_updatePlayer _ hget c]
          simp only [get_addGems, get_subtractGems, get_calculateGemsToSpend _ _ _ c hc,
            max_zero_sub_spendAmount]
          ring

/-- Concrete state for the C5 witness. -/
def c5State : GameState :=
  { players :=
      [⟨"human-1", "You", Gems.zero, [], [], 0, [], false⟩,
       ⟨"ai-1", "AI-1", ⟨1, 0, 0, 0, 0, 0⟩, [], [], 0, [], true⟩],
    currentPlayerIndex := 0,
    deck := ⟨[], [], []⟩,
    nobles := [],
    displayedCards := ⟨[], [], []⟩,
    gemPool := ⟨4, 4, 4, 4, 4, 5⟩,
    gamePhase := Phase.active }

/-- Result of the concrete take of the C5 witness. -/
def c5Result : GameState :=
  match gameReducer c5State (GameAction.takeGems 0 [Color.red, Color.blue, Color.green]) with
  | .ok s => s
  | .error _ => c5State

theorem c5_color_conservation_witness :
    colorTotal c5Result Color.red = colorTotal c5State Color.red :=
  c5_color_conservation c5State (GameAction.takeGems 0 [Color.red, Color.blue, Color.green])
    c5Result Color.red rfl
    (Or.inl ⟨0, [Color.red, Color.blue, Color.green], rfl⟩) (by decide)

/- ===== Soundness of the legal-action enumeration ===== -/

theorem matchesAction_self (a : GameAction) : matchesAction a a = true := by
  cases a <;> simp [matchesAction, sameGemSelection, List.all_eq_true]

theorem mem_getValidGemTakes {s : GameState} {i : Nat} {player : PlayerState}
    {a : GameAction} (h : a ∈ getValidGemTakes s i player) :
    ∃ g, a = GameAction.takeGems i g ∧ validateGemTake g s.gemPool player.gems = true := by
  simp only [getValidGemTakes] at h
  rw [List.mem_append] at h
  rcases h with h | h
  · rw [List.mem_filterMap] at h
    obtain ⟨g, _, hsome⟩ := h
    split at hsome
    · rename_i hcond
      exact ⟨[g, g], (Option.some.inj hsome).symm, hcond.2⟩
    · exact Option.noConfusion hsome
  · split at h
    · rw [List.mem_filterMap] at h
      obtain ⟨g, _, hsome⟩ := h
      split at hsome
      · rename_i hcond
        exact ⟨g, (Option.some.inj hsome).symm, hcond⟩
      · exact Option.noConfusion hsome
    · split at h
      · rw [List.mem_append] at h
        rcases h with h | h
        · split at h
          · split at h
            · rename_i hcond
              rw [List.mem_singleton] at h
              exact ⟨_, h, hcond⟩
            · exact absurd h (List.not_mem_nil a)
          · exact absurd h (List.not_mem_nil a)
        · rw [List.mem_filterMap] at h
          obtain ⟨g, _, hsome⟩ := h
          split at hsome
          · rename_i hcond
            exact ⟨[g], (Option.some.inj hsome).symm, hcond⟩
          · exact Option.noConfusion hsome
      · split at h
        · rw [List.mem_filterMap] at h
          obtain ⟨g, _, hsome⟩ := h
          split at hsome
          · rename_i hcond
            exact ⟨[g], (Option.some.inj hsome).symm, hcond⟩
          · exact Option.noConfusion hsome
        · exact absurd h (List.not_mem_nil a)

theorem mem_getValidReservations {s : GameState} {i : Nat} {player : PlayerState}
    {a : GameAction} (h : a ∈ getValidReservations s i player) :
    player.reservedCards.length < MAX_RESERVED_CARDS ∧
    ∃ card, a = GameAction.reserveCard i card ∧
      card ∈ s.displayedCards.level1 ++ s.displayedCards.level2 ++ s.displayedCards.level3 := by
  simp only [getValidReservations] at h
  split at h
  · exact absurd h (List.not_mem_nil a)
  · rename_i hcap
    rw [List.mem_map] at h
    obtain ⟨card, hc, rfl⟩ := h
    exact ⟨not_le.mp hcap, card, rfl, hc⟩

theorem mem_getValidPurchases {s : GameState} {i : Nat} {player : PlayerState}
    {a : GameAction} (h : a ∈ getValidPurchases s i player) :
    ∃ card, a = GameAction.purchaseCard i card ∧ canPurchaseCard player card = true ∧
      (card ∈ s.displayedCards.level1 ++ s.displayedCards.level2 ++ s.displayedCards.level3 ∨
       card ∈ player.reservedCards) := by
  simp only [getValidPurchases] at h
  rw [List.mem_append] at h
  rcases h with h | h <;>
  · rw [List.mem_filterMap] at h
    obtain ⟨card, hc, hsome⟩ := h
    split at hsome
    · rename_i hcond
      exact ⟨card, (Option.some.inj hsome).symm, hcond, by first | exact Or.inl hc | exact Or.inr hc⟩
    · exact Option.noConfusion hsome

theorem mem_getValidNobleClaims {s : GameState} {i : Nat} {player : PlayerState}
    {a : GameAction} (h : a ∈ getValidNobleClaims s i player) :
    ∃ noble, a = GameAction.claimNoble i noble ∧ noble ∈ s.nobles ∧
      player.nobles.any (fun n => n.id = noble.id) = false ∧
      canAfford player.gems noble.requirement = true := by
  simp only [getValidNobleClaims] at h
  rw [List.mem_filterMap] at h
  obtain ⟨noble, hn, hsome⟩ := h
  split at hsome
  · exact Option.noConfusion hsome
  · split at hsome
    · rename_i howned hafford
      exact ⟨noble, (Option.some.inj hsome).symm, hn,
        Bool.of_not_eq_true howned, hafford⟩
    · exact Option.noConfusion hsome

/- ===== Claim C7 ===== -/

/-- Legality of one enumerated action, used to state the amended C7. -/
def ActionLegal (s : GameState) (i : Nat) (p : PlayerState) : GameAction → Prop
  | .endTurn j => j = i
  | .takeGems j g => j = i ∧ validateGemTake g s.gemPool p.gems = true
  | .reserveCard j card => j = i ∧ p.reservedCards.length < MAX_RESERVED_CARDS ∧
      card ∈ s.displayedCards.level1 ++ s.displayedCards.level2 ++ s.displayedCards.level3
  | .purchaseCard j card => j = i ∧ canPurchaseCard p card = true ∧
      (card ∈ s.displayedCards.level1 ++ s.displayedCards.level2 ++ s.displayedCards.level3 ∨
       card ∈ p.reservedCards)
  | .claimNoble j noble => j = i ∧ noble ∈ s.nobles ∧
      p.nobles.any (fun n => n.id = noble.id) = false ∧
      canAfford p.gems noble.requirement = true
  | .discardGems _ _ => False

/-- Two-player state with a pending discard obligation of 2 owed by player
0, used to refute C7 as stated. -/
def c7State : GameState :=
  { players :=
      [⟨"human-1", "You", ⟨6, 6, 0, 0, 0, 0⟩, [], [], 0, [], false⟩,
       ⟨"ai-1", "AI-1", Gems.zero, [], [], 0, [], true⟩],
    currentPlayerIndex := 0,
    deck := ⟨[], [], []⟩,
    nobles := [],
    displayedCards := ⟨[], [], []⟩,
    gemPool := ⟨2, 2, 4, 4, 4, 5⟩,
    gamePhase := Phase.active,
    pendingDiscard := some ⟨0, 2⟩ }

/-- Claim C7 fails on the code: while a discard obligation is pending for
player 0, getValidActions for player 1 — who owes no discard — returns the
empty list rather than end-turn plus the legal actions. -/
theorem c7_counterexample :
    c7State.pendingDiscard = some ⟨0, 2⟩ ∧
    getValidActions c7State 1 = [] ∧
    GameAction.endTurn 1 ∉ getValidActions c7State 1 := by
  refine ⟨rfl, rfl, by decide⟩

/-- Claim C7 amended: with an obligation pending for the queried player,
getValidActions returns only the discard action; with one pending for a
different player it returns the empty list; with none pending (and a valid
player index) it returns end-turn followed by the enumerated gem takes,
reservations, purchases and noble claims, every element of which is legal
for that player (validated take, reservation under the cap of a displayed
card, affordable purchase of a displayed or reserved card, affordable
unclaimed noble from the pool). -/
theorem c7_amended (s : GameState) (i : Nat) :
    (∀ pd, s.pendingDiscard = some pd →
      getValidActions s i =
        if pd.playerIndex = i then [GameAction.discardGems i []] else []) ∧
    (s.pendingDiscard = none → ∀ p, s.players.get? i = some p →
      (getValidActions s i =
        GameAction.endTurn i ::
          (getValidGemTakes s i p ++ getValidReservations s i p ++
           getValidPurchases s i p ++ getValidNobleClaims s i p) ∧
       ∀ a ∈ getValidActions s i, ActionLegal s i p a)) := by
  constructor
  · intro pd hpd
    simp only [getValidActions, hpd]
    by_cases hpi : pd.playerIndex = i
    · rw [if_neg (by simp [hpi]), if_pos hpi]
    · rw [if_pos hpi, if_neg hpi]
  · intro hpd p hget
    simp only [getValidActions, hpd, hget]
    refine ⟨by trivial, ?_⟩
    intro a ha
    rw [List.mem_cons] at ha
    rcases ha with rfl | ha
    · exact rfl
    · rw [List.mem_append] at ha
      rcases ha with ha | ha
      · rw [List.mem_append] at ha
        rcases ha with ha | ha
        · rw [List.mem_append] at ha
          rcases ha with ha | ha
          · obtain ⟨g, rfl, hv⟩ := mem_getValidGemTakes ha
            exact ⟨rfl, hv⟩
          · obtain ⟨hcap, card, rfl, hc⟩ := mem_getValidReservations ha
            exact ⟨rfl, hcap, hc⟩
        · obtain ⟨card, rfl, hv, hc⟩ := mem_getValidPurchases ha
          exact ⟨rfl, hv, hc⟩
      · obtain ⟨noble, rfl, hn, howned, hafford⟩ := mem_getValidNobleClaims ha
        exact ⟨rfl, hn, howned, hafford⟩

/-- Witness for the amended C7 on a concrete state with an obligation
pending for player 0: the queried owing player gets exactly the discard
action. -/
theorem c7_amended_witness :
    getValidActions c7State 0 =
      if (0 : Nat) = 0 then [GameAction.discardGems 0 []] else [] :=
  (c7_amended c7State 0).1 ⟨0, 2⟩ rfl

/- ===== Non-failure lemmas for the handlers ===== -/

theorem handleClaimNoble_ok {s : GameState} {i : Nat} {noble : Noble} {p : PlayerState}
    (hget : s.players.get? i = some p)
    (hafford : canAfford p.gems noble.requirement = true) :
    handleClaimNoble s i noble = .ok
      { s with
        players := updatePlayer s.players i
          (fun q => { q with
            nobles := q.nobles ++ [noble],
            points := q.points + noble.points }),
        nobles := s.nobles.filter (fun n => ¬ n.id = noble.id) } := by
  simp only [handleClaimNoble, hget, canClaimNoble]
  rw [if_neg (by simp [hafford])]

theorem claimNoblesFold_ok :
    ∀ (ns : List Noble) (s : GameState) (i : Nat) (p : PlayerState),
    s.players.get? i = some p →
    (∀ n ∈ ns, canAfford p.gems n.requirement = true) →
    ∃ s' p', claimNoblesFold s i ns = .ok s' ∧
      s'.players.get? i = some p' ∧ p'.gems = p.gems
  | [], s, i, p, hget, _ => ⟨s, p, rfl, hget, rfl⟩
  | n :: rest, s, i, p, hget, hall => by
    have h1 := handleClaimNoble_ok hget (hall n (List.mem_cons_self n rest))
    have hget1 := get?_updatePlayer_self
      (fun q => { q with nobles := q.nobles ++ [n], points := q.points + n.points }) hget
    obtain ⟨s', p', hfold, hget', hgems'⟩ :=
      claimNoblesFold_ok rest
        { s with
          players := updatePlayer s.players i
            (fun q => { q with nobles := q.nobles ++ [n], points := q.points + n.points }),
          nobles := s.nobles.filter (fun m => ¬ m.id = n.id) }
        i
        { p with nobles := p.nobles ++ [n], points := p.points + n.points }
        hget1 (fun m hm => hall m (List.mem_cons_of_mem n hm))
    refine ⟨s', p', ?_, hget', hgems'⟩
    simp only [claimNoblesFold, h1]
    exact hfold

theorem handleEndTurn_ok {s : GameState} (i : Nat) (hpd : s.pendingDiscard = none) :
    ∃ s', handleEndTurn s i = .ok s' := by
  simp only [handleEndTurn, hpd]
  cases hget : s.players.get? i with
  | none =>
    have he : getEligibleNobles s i = [] := by rw [getEligibleNobles, hget]
    rw [he]
    exact ⟨_, rfl⟩
  | some p =>
    have hall : ∀ n ∈ getEligibleNobles s i, canAfford p.gems n.requirement = true := by
      intro n hn
      simp only [getEligibleNobles, hget, List.mem_filter, canClaimNoble] at hn
      exact hn.2
    obtain ⟨s1, p1, hfold, _, _⟩ := claimNoblesFold_ok _ _ _ _ hget hall
    rw [hfold]
    exact ⟨_, rfl⟩

theorem handleTakeGems_ok {s : GameState} {i : Nat} {g : List Color} {p : PlayerState}
    (hget : s.players.get? i = some p)
    (hval : validateGemTake g s.gemPool p.gems = true) :
    ∃ s', handleTakeGems s i g = .ok s' := by
  simp only [handleTakeGems, hget]
  rw [if_neg (by simp [hval])]
  exact ⟨_, rfl⟩

theorem handleReserveCard_ok {s : GameState} {i : Nat} {card : Card} {p : PlayerState}
    (hget : s.players.get? i = some p)
    (hcap : p.reservedCards.length < MAX_RESERVED_CARDS)
    (hdisp : (s.displayedCards.at card.level).any (fun c => c.id = card.id) = true) :
    ∃ s', handleReserveCard s i card = .ok s' := by
  simp only [handleReserveCard, hget]
  rw [if_neg (not_le.mpr hcap)]
  rw [if_neg (by simp [hdisp])]
  exact ⟨_, rfl⟩

theorem handlePurchaseCard_ok {s : GameState} {i : Nat} {card : Card} {p : PlayerState}
    (hget : s.players.get? i = some p)
    (hafford : canPurchaseCard p card = true)
    (hfound : (s.displayedCards.at card.level).any (fun c => c.id = card.id) = true ∨
      p.reservedCards.any (fun c => c.id = card.id) = true) :
    ∃ s', handlePurchaseCard s i card = .ok s' := by
  simp only [handlePurchaseCard, hget]
  rw [if_neg (by simp [hafford])]
  rw [if_neg (by rcases hfound with h | h <;> simp [h])]
  exact ⟨_, rfl⟩

/-- Well-formed display: every card shown in a level row carries that
level (true of every state the engine builds, since refills come from the
deck of the same level). -/
def WfDisplay (s : GameState) : Prop :=
  (∀ c ∈ s.displayedCards.level1, c.level = Level.one) ∧
  (∀ c ∈ s.displayedCards.level2, c.level = Level.two) ∧
  (∀ c ∈ s.displayedCards.level3, c.level = Level.three)

theorem mem_displayedAt {s : GameState} {card : Card} (hwf : WfDisplay s)
    (h : card ∈ s.displayedCards.level1 ++ s.displayedCards.level2 ++ s.displayedCards.level3) :
    card ∈ s.displayedCards.at card.level := by
  rw [List.mem_append, List.mem_append] at h
  rcases h with (h | h) | h
  · rw [hwf.1 card h]; exact h
  · rw [hwf.2.1 card h]; exact h
  · rw [hwf.2.2 card h]; exact h

theorem any_id_of_mem {l : List Card} {card : Card} (h : card ∈ l) :
    (l.any (fun c => c.id = card.id)) = true := by
  rw [List.any_eq_true]
  exact ⟨card, h, by simp⟩

theorem isActionValid_of_mem {s : GameState} {a : GameAction} {j : Nat}
    (hpd : s.pendingDiscard = none)
    (hnd : ∀ i g, a ≠ GameAction.discardGems i g)
    (hmem : a ∈ getValidActions s j) :
    isActionValid s a (getValidActions s j) = true := by
  have hlist : isActionValidAgainstList a (getValidActions s j) = true := by
    rw [isActionValidAgainstList, List.any_eq_true]
    exact ⟨a, hmem, matchesAction_self a⟩
  cases a with
  | discardGems i g => exact absurd rfl (hnd i g)
  | takeGems i g => simpa only [isActionValid, hpd] using hlist
  | reserveCard i c => simpa only [isActionValid, hpd] using hlist
  | purchaseCard i c => simpa only [isActionValid, hpd] using hlist
  | claimNoble i n => simpa only [isActionValid, hpd] using hlist
  | endTurn i => simpa only [isActionValid, hpd] using hlist

/- ===== Claim C4 ===== -/

/-- A cheap display card for the C4 counterexample. -/
def c4Card : Card := ⟨"c4-card", Level.one, 0, Color.white, ⟨9, 9, 9, 9, 9, 0⟩⟩

/-- Concrete state for the C4 counterexample: the current player already
holds the cap of 10 gems. -/
def c4State : GameState :=
  { players :=
      [⟨"human-1", "You", ⟨10, 0, 0, 0, 0, 0⟩, [], [], 0, [], false⟩,
       ⟨"ai-1", "AI-1", Gems.zero, [], [], 0, [], true⟩],
    currentPlayerIndex := 0,
    deck := ⟨[], [], []⟩,
    nobles := [],
    displayedCards := ⟨[c4Card], [], []⟩,
    gemPool := ⟨0, 4, 4, 4, 4, 5⟩,
    gamePhase := Phase.active }

/-- The state reached by reserving the displayed card: the extra wildcard
puts the player at 11 gems, so a pending discard of 1 is installed. -/
def c4Mid : GameState :=
  match executeTurnStep c4State (GameAction.reserveCard 0 c4Card) with
  | .ok s => s
  | .error _ => c4State

/-- Claim C4 fails on the code: the reservation is taken from
getValidActions and executes fine, installing a discard obligation of 1;
but the only action getValidActions then returns — the placeholder discard
with an empty gem list — is rejected by executeTurn, which raises the
invalid-action error because the empty selection does not match the
pending count. -/
theorem c4_counterexample :
    GameAction.reserveCard 0 c4Card ∈ getValidActions c4State c4State.currentPlayerIndex ∧
    executeTurnStep c4State (GameAction.reserveCard 0 c4Card) = .ok c4Mid ∧
    c4Mid.pendingDiscard = some ⟨0, 1⟩ ∧
    getValidActions c4Mid c4Mid.currentPlayerIndex = [GameAction.discardGems 0 []] ∧
    executeTurnStep c4Mid (GameAction.discardGems 0 []) = .error "Invalid action" := by
  exact ⟨by decide, rfl, by decide, by decide, rfl⟩

/-- Claim C4 amended: in a state with no pending discard obligation (and a
well-formed display), every action returned by getValidActions for the
current player passes the controller validation and is applied by the
transition function without an error.  When an obligation is pending, the
single placeholder discard action returned (empty gem list) is rejected by
executeTurn whenever the owed count is positive, as the counterexample
shows. -/
theorem c4_amended (s : GameState) (a : GameAction)
    (hwf : WfDisplay s) (hpd : s.pendingDiscard = none)
    (hmem : a ∈ getValidActions s s.currentPlayerIndex) :
    ∃ s', executeTurnStep s a = .ok s' := by
  cases hg : s.players.get? s.currentPlayerIndex with
  | none =>
    rw [getValidActions, hpd] at hmem
    rw [hg] at hmem
    exact absurd hmem (List.not_mem_nil a)
  | some p =>
    rw [getValidActions, hpd, hg] at hmem
    rw [List.mem_cons] at hmem
    -- reduce to a reducer success plus index and non-discard facts
    have main : a.playerIndex = s.currentPlayerIndex ∧
        (∀ i g, a ≠ GameAction.discardGems i g) ∧
        ∃ s₁, gameReducer s a = .ok s₁ := by
      rcases hmem with rfl | hmem
      · exact ⟨rfl, fun i g => GameAction.noConfusion, handleEndTurn_ok _ hpd⟩
      · rw [List.mem_append] at hmem
        rcases hmem with hmem | hmem
        · rw [List.mem_append] at hmem
          rcases hmem with hmem | hmem
          · rw [List.mem_append] at hmem
            rcases hmem with hmem | hmem
            · obtain ⟨g, rfl, hv⟩ := mem_getValidGemTakes hmem
              exact ⟨rfl, fun i g h => GameAction.noConfusion h, handleTakeGems_ok hg hv⟩
            · obtain ⟨hcap, card, rfl, hc⟩ := mem_getValidReservations hmem
              exact ⟨rfl, fun i g h => GameAction.noConfusion h,
                handleReserveCard_ok hg hcap (any_id_of_mem (mem_displayedAt hwf hc))⟩
          · obtain ⟨card, rfl, hv, hc⟩ := mem_getValidPurchases hmem
            refine ⟨rfl, fun i g h => GameAction.noConfusion h, ?_⟩
            refine handlePurchaseCard_ok hg hv ?_
            rcases hc with hc | hc
            · exact Or.inl (any_id_of_mem (mem_displayedAt hwf hc))
            · exact Or.inr (any_id_of_mem hc)
        · obtain ⟨noble, rfl, _, _, hafford⟩ := mem_getValidNobleClaims hmem
          exact ⟨rfl, fun i g h => GameAction.noConfusion h,
            ⟨_, handleClaimNoble_ok hg hafford⟩⟩
    obtain ⟨hidx, hnd, s₁, hred⟩ := main
    have hmem' : a ∈ getValidActions s s.currentPlayerIndex := by
      rw [getValidActions, hpd, hg]
      rcases hmem with rfl | hmem
      · exact List.mem_cons_self _ _
      · exact List.mem_cons_of_mem _ hmem
    have hvalid := isActionValid_of_mem hpd hnd (hidx ▸ hmem')
    rw [executeTurnStep]
    rw [if_neg (by simp [hidx])]
    rw [if_neg (by simp [hvalid])]
    simp only [hred]
    cases hE : a.isEndTurn
    · rw [if_neg (by simp [hE])]
      exact ⟨_, rfl⟩
    · rw [if_pos (by simp [hE])]
      exact ⟨_, rfl⟩

/-- Concrete no-obligation state for the C4 amended witness. -/
def c4WitnessState : GameState :=
  { players :=
      [⟨"human-1", "You", Gems.zero, [], [], 0, [], false⟩,
       ⟨"ai-1", "AI-1", Gems.zero, [], [], 0, [], true⟩],
    currentPlayerIndex := 0,
    deck := ⟨[], [], []⟩,
    nobles := [],
    displayedCards := ⟨[c4Card], [], []⟩,
    gemPool := ⟨4, 4, 4, 4, 4, 5⟩,
    gamePhase := Phase.active }

theorem c4_amended_witness :
    ∃ s', executeTurnStep c4WitnessState (GameAction.takeGems 0 [Color.red, Color.red]) = .ok s' :=
  c4_amended c4WitnessState (GameAction.takeGems 0 [Color.red, Color.red])
    (by refine ⟨?_, ?_, ?_⟩ <;> decide) rfl (by decide)

/- ===== Claim C8 ===== -/

/-- Claim C8: in the chained AI execution, a decision failure (thrown
error) or a proposal failing validation is replaced by an end-turn for the
current actor, and the loop body then completes without an error — the
failure is never propagated to the caller. -/
theorem c8_ai_failure_contained (s : GameState) (e : String) (proposed : GameAction)
    (hpd : s.pendingDiscard = none) :
    aiResolveAction s (.error e) = GameAction.endTurn s.currentPlayerIndex ∧
    (isActionValid s proposed (getValidActions s s.currentPlayerIndex) = false →
      aiResolveAction s (.ok proposed) = GameAction.endTurn s.currentPlayerIndex) ∧
    (∃ s₁, aiStep s (.error e) = .ok s₁) ∧
    (isActionValid s proposed (getValidActions s s.currentPlayerIndex) = false →
      ∃ s₂, aiStep s (.ok proposed) = .ok s₂) := by
  have hstep : ∀ d : Except String GameAction,
      aiResolveAction s d = GameAction.endTurn s.currentPlayerIndex →
      ∃ s', aiStep s d = .ok s' := by
    intro d hd
    obtain ⟨s₁, h₁⟩ := handleEndTurn_ok (s := s) s.currentPlayerIndex hpd
    rw [aiStep, hd, applyActionAndEndTurn]
    have hr : gameReducer s (GameAction.endTurn s.currentPlayerIndex) = .ok s₁ := h₁
    rw [hr]
    exact ⟨_, rfl⟩
  have h1 : aiResolveAction s (.error e) = GameAction.endTurn s.currentPlayerIndex := by
    rw [aiResolveAction]
    split <;> rfl
  have h2 : isActionValid s proposed (getValidActions s s.currentPlayerIndex) = false →
      aiResolveAction s (.ok proposed) = GameAction.endTurn s.currentPlayerIndex := by
    intro hinvalid
    rw [aiResolveAction]
    simp [hinvalid]
  exact ⟨h1, h2, hstep _ h1, fun hinvalid => hstep _ (h2 hinvalid)⟩

/-- Concrete state for the C8 witness: the current actor is an AI. -/
def c8State : GameState :=
  { players :=
      [⟨"human-1", "You", Gems.zero, [], [], 0, [], false⟩,
       ⟨"ai-1", "AI-1", Gems.zero, [], [], 0, [], true⟩],
    currentPlayerIndex := 1,
    deck := ⟨[], [], []⟩,
    nobles := [],
    displayedCards := ⟨[], [], []⟩,
    gemPool := ⟨4, 4, 4, 4, 4, 5⟩,
    gamePhase := Phase.active }

theorem c8_ai_failure_contained_witness :
    aiResolveAction c8State (.error "AI decision failed") =
      GameAction.endTurn c8State.currentPlayerIndex ∧
    (isActionValid c8State (GameAction.discardGems 1 [])
        (getValidActions c8State c8State.currentPlayerIndex) = false →
      aiResolveAction c8State (.ok (GameAction.discardGems 1 [])) =
        GameAction.endTurn c8State.currentPlayerIndex) ∧
    (∃ s₁, aiStep c8State (.error "AI decision failed") = .ok s₁) ∧
    (isActionValid c8State (GameAction.discardGems 1 [])
        (getValidActions c8State c8State.currentPlayerIndex) = false →
      ∃ s₂, aiStep c8State (.ok (GameAction.discardGems 1 [])) = .ok s₂) :=
  c8_ai_failure_contained c8State "AI decision failed" (GameAction.discardGems 1 []) rfl

end Prestige
